import Mathlib

/-!
Shallow embedding of the clean-csv tool (src/main.rs).

The program processes CSV files keyed by an `email` column, in two modes:
exclusion (`clean_file_by_emails`, drop records whose normalized key is in a
reference set) and dedup (`remove_duplicates_in_file`, keep the first record
for each normalized key).  A CSV file is modelled as a header (`List String`)
plus a list of records (`List (List String)`); the `HashSet<String>` is
modelled as a `List String` with membership-guarded insertion; the successful
result of each mode is the list of records written to the temporary output
(header first) together with the returned kept-record count.
-/

namespace CleanCsv

/-- Rust `str::trim`: drop leading and trailing whitespace (on the ASCII
email domain Rust's Unicode white-space and `Char.isWhitespace` agree). -/
def trim (s : String) : String :=
  ⟨((s.data.dropWhile Char.isWhitespace).reverse.dropWhile Char.isWhitespace).reverse⟩

/-- Rust `str::to_lowercase`: lowercase every character (ASCII case folding,
which agrees with Rust on the ASCII email domain). -/
def to_lowercase (s : String) : String :=
  ⟨s.data.map Char.toLower⟩

/-- The trim-then-lowercase key extraction that all three processing functions
apply to a cell (`email.trim().is_empty()` guard, then
`email.trim().to_lowercase()`; src/main.rs lines 100-106, 145-158, 205-219):
`none` when the trimmed cell is empty, otherwise the trimmed, lowercased key. -/
def normalize (raw : String) : Option String :=
  if trim raw = "" then none else some (to_lowercase (trim raw))

/-- Normalized key of a record: cell at the key column (`record.get(i)`,
`none` when out of range), then `normalize`. -/
def normKey (i : Nat) (record : List String) : Option String :=
  match record.get? i with
  | some email => normalize email
  | none => none

/-- Rust `Iterator::position` over the header entries, as used by
`headers.iter().position(|h| h == "email")` (src/main.rs lines 92, 131, 189). -/
def position (p : String → Bool) : List String → Option Nat
  | [] => none
  | h :: t => if p h then some 0 else (position p t).map (· + 1)

/-- Effect of `HashSet::insert` on the modelled set: add the key unless it is
already present.  `insert` reported "newly inserted" iff `s.contains k = false`. -/
def hashInsert (s : List String) (k : String) : List String :=
  if s.contains k then s else k :: s

/-- The `keep_row` decision of `clean_file_by_emails` (src/main.rs lines
145-158): keep when the email cell is absent or blank, otherwise keep iff the
normalized key is not in `emails_to_remove`. -/
def keepRow (emails_to_remove : List String) (i : Nat) (record : List String) : Bool :=
  match record.get? i with
  | some email =>
      if trim email = "" then true
      else !(emails_to_remove.contains (to_lowercase (trim email)))
  | none => true

/-- The record loop of `clean_file_by_emails` (src/main.rs lines 140-164):
written records in order, paired with `kept_count`. -/
def cleanLoop (emails_to_remove : List String) (i : Nat) :
    List (List String) → List (List String) × Nat
  | [] => ([], 0)
  | r :: rs =>
      let rest := cleanLoop emails_to_remove i rs
      if keepRow emails_to_remove i r then (r :: rest.1, rest.2 + 1) else rest

/-- `clean_file_by_emails` (src/main.rs lines 114-169): resolve the `email`
column (error when absent), then write the header followed by the kept
records, returning the written rows and the kept-record count. -/
def clean_file_by_emails (emails_to_remove : List String) (headers : List String)
    (rows : List (List String)) : Except String (List (List String) × Nat) :=
  match position (fun h => h == "email") headers with
  | none => Except.error "Coluna email nao encontrada"
  | some i =>
      let res := cleanLoop emails_to_remove i rows
      Except.ok (headers :: res.1, res.2)

/-- The `is_duplicate` step of `remove_duplicates_in_file` (src/main.rs lines
205-219): blank or absent email cells are never duplicates and leave the seen
set untouched; otherwise the record is a duplicate iff
`seen_emails.insert(key)` reports the key was already present, and the key is
inserted into the seen set either way. -/
def dedupStep (seen : List String) (i : Nat) (record : List String) :
    Bool × List String :=
  match record.get? i with
  | some email =>
      if trim email = "" then (false, seen)
      else (seen.contains (to_lowercase (trim email)), hashInsert seen (to_lowercase (trim email)))
  | none => (false, seen)

/-- The record loop of `remove_duplicates_in_file` (src/main.rs lines
198-226): threads the seen set through `dedupStep`, keeps non-duplicates. -/
def dedupLoop (i : Nat) (seen : List String) :
    List (List String) → List (List String) × Nat
  | [] => ([], 0)
  | r :: rs =>
      let step := dedupStep seen i r
      let rest := dedupLoop i step.2 rs
      if step.1 then rest else (r :: rest.1, rest.2 + 1)

/-- `remove_duplicates_in_file` (src/main.rs lines 173-231): resolve the
`email` column (error when absent), then write the header followed by the
first occurrence of each non-empty normalized key (blank keys always kept). -/
def remove_duplicates_in_file (headers : List String) (rows : List (List String)) :
    Except String (List (List String) × Nat) :=
  match position (fun h => h == "email") headers with
  | none => Except.error "Coluna email nao encontrada"
  | some i =>
      let res := dedupLoop i [] rows
      Except.ok (headers :: res.1, res.2)

/-- The set-building loop of `read_emails_to_set` (src/main.rs lines 99-107):
insert the normalized key of every record whose email cell is present and
non-blank. -/
def buildSet (i : Nat) (acc : List String) : List (List String) → List String
  | [] => acc
  | r :: rs =>
      match r.get? i with
      | some email =>
          if trim email = "" then buildSet i acc rs
          else buildSet i (hashInsert acc (to_lowercase (trim email))) rs
      | none => buildSet i acc rs

/-- `read_emails_to_set` (src/main.rs lines 86-110): resolve the `email`
column (error when absent), then accumulate the set of non-empty normalized
keys of the reference file. -/
def read_emails_to_set (headers : List String) (rows : List (List String)) :
    Except String (List String) :=
  match position (fun h => h == "email") headers with
  | none => Except.error "Coluna email nao encontrada"
  | some i => Except.ok (buildSet i [] rows)

/-- Number of keys in `ks` that are new relative to `seen`, counting each
distinct new key once (the increments `seen_emails.insert` contributes). -/
def countDistinct (seen : List String) : List String → Nat
  | [] => 0
  | k :: ks =>
      if seen.contains k then countDistinct seen ks
      else countDistinct (k :: seen) ks + 1

/-- Whether a run succeeded (`Ok` versus `Err`). -/
def isOk : Except String α → Bool
  | Except.ok _ => true
  | Except.error _ => false

/-! ### Basic lemmas about the exclusion pass -/

lemma cleanLoop_eq (R : List String) (i : Nat) (rows : List (List String)) :
    cleanLoop R i rows =
      (rows.filter (keepRow R i), (rows.filter (keepRow R i)).length) := by
  induction rows with
  | nil => rfl
  | cons r rs ih =>
      simp only [cleanLoop, ih, List.filter_cons]
      cases h : keepRow R i r <;> simp [h]

lemma keepRow_eq_false_iff (R : List String) (i : Nat) (r : List String) :
    keepRow R i r = false ↔ ∃ k, normKey i r = some k ∧ k ∈ R := by
  unfold keepRow normKey normalize
  cases hc : r.get? i with
  | none => simp
  | some email => by_cases he : trim email = "" <;> simp [he]

lemma keepRow_of_noKey (R : List String) (i : Nat) (r : List String)
    (h : normKey i r = none) : keepRow R i r = true := by
  cases hk : keepRow R i r
  · rcases (keepRow_eq_false_iff R i r).1 hk with ⟨k, hk1, _⟩
    rw [h] at hk1
    cases hk1
  · rfl

/-! ### Basic lemmas about the dedup pass -/

lemma dedupStep_eq (seen : List String) (i : Nat) (r : List String) :
    dedupStep seen i r =
      match normKey i r with
      | none => (false, seen)
      | some k => (seen.contains k, hashInsert seen k) := by
  unfold dedupStep normKey normalize
  cases hc : r.get? i with
  | none => rfl
  | some email => by_cases he : trim email = "" <;> simp [he]

lemma hashInsert_of_contains {s : List String} {k : String}
    (h : s.contains k = true) : hashInsert s k = s := by
  unfold hashInsert; rw [h]; simp

lemma hashInsert_of_not_contains {s : List String} {k : String}
    (h : s.contains k = false) : hashInsert s k = k :: s := by
  unfold hashInsert; rw [h]; simp

lemma dedupStep_noKey {i : Nat} {r : List String} (seen : List String)
    (h : normKey i r = none) : dedupStep seen i r = (false, seen) := by
  rw [dedupStep_eq, h]

lemma dedupStep_someKey {i : Nat} {r : List String} {k : String} (seen : List String)
    (h : normKey i r = some k) :
    dedupStep seen i r = (seen.contains k, hashInsert seen k) := by
  rw [dedupStep_eq, h]

lemma dedupLoop_cons (i : Nat) (seen : List String) (r : List String)
    (rs : List (List String)) :
    dedupLoop i seen (r :: rs) =
      if (dedupStep seen i r).1 then dedupLoop i (dedupStep seen i r).2 rs
      else (r :: (dedupLoop i (dedupStep seen i r).2 rs).1,
            (dedupLoop i (dedupStep seen i r).2 rs).2 + 1) := rfl

lemma dedupLoop_cons_noKey {i : Nat} {r : List String} (seen : List String)
    (rs : List (List String)) (h : normKey i r = none) :
    dedupLoop i seen (r :: rs) =
      (r :: (dedupLoop i seen rs).1, (dedupLoop i seen rs).2 + 1) := by
  rw [dedupLoop_cons, dedupStep_noKey seen h]
  simp

lemma dedupLoop_cons_dup {i : Nat} {r : List String} {k : String} {seen : List String}
    (rs : List (List String)) (h : normKey i r = some k)
    (hc : seen.contains k = true) :
    dedupLoop i seen (r :: rs) = dedupLoop i seen rs := by
  rw [dedupLoop_cons, dedupStep_someKey seen h, hashInsert_of_contains hc, hc]
  simp

lemma dedupLoop_cons_new {i : Nat} {r : List String} {k : String} {seen : List String}
    (rs : List (List String)) (h : normKey i r = some k)
    (hc : seen.contains k = false) :
    dedupLoop i seen (r :: rs) =
      (r :: (dedupLoop i (k :: seen) rs).1, (dedupLoop i (k :: seen) rs).2 + 1) := by
  rw [dedupLoop_cons, dedupStep_someKey seen h, hashInsert_of_not_contains hc, hc]
  simp

/-- A record retained by the dedup loop never carries a key that was already
in the seen set when the loop started. -/
lemma dedupLoop_mem_key_not_seen (i : Nat) (rows : List (List String)) :
    ∀ (seen : List String) (r : List String) (k : String),
      r ∈ (dedupLoop i seen rows).1 → normKey i r = some k →
      seen.contains k = false := by
  induction rows with
  | nil => intro seen r k h _; simp [dedupLoop] at h
  | cons r0 rs ih =>
      intro seen r k hmem hk
      cases h0 : normKey i r0 with
      | none =>
          rw [dedupLoop_cons_noKey seen rs h0] at hmem
          rcases List.mem_cons.1 hmem with rfl | hmem'
          · rw [h0] at hk; cases hk
          · exact ih seen r k hmem' hk
      | some k0 =>
          cases hc : seen.contains k0 with
          | true =>
              rw [dedupLoop_cons_dup rs h0 hc] at hmem
              exact ih seen r k hmem hk
          | false =>
              rw [dedupLoop_cons_new rs h0 hc] at hmem
              rcases List.mem_cons.1 hmem with rfl | hmem'
              · rw [h0] at hk
                injection hk with hkk
                rw [← hkk]
                exact hc
              · have h2 := ih (k0 :: seen) r k hmem' hk
                rw [List.contains_cons] at h2
                exact (Bool.or_eq_false_iff.mp h2).2

/-- The dedup loop only ever emits records of its input, in input order. -/
lemma dedupLoop_sublist (i : Nat) (rows : List (List String)) :
    ∀ seen, ((dedupLoop i seen rows).1).Sublist rows := by
  induction rows with
  | nil => intro seen; simp [dedupLoop]
  | cons r0 rs ih =>
      intro seen
      cases h0 : normKey i r0 with
      | none =>
          rw [dedupLoop_cons_noKey seen rs h0]
          exact List.Sublist.cons₂ r0 (ih seen)
      | some k0 =>
          cases hc : seen.contains k0 with
          | true =>
              rw [dedupLoop_cons_dup rs h0 hc]
              exact List.Sublist.cons r0 (ih seen)
          | false =>
              rw [dedupLoop_cons_new rs h0 hc]
              exact List.Sublist.cons₂ r0 (ih (k0 :: seen))

/-- The count returned by the dedup loop is the number of records it emits. -/
lemma dedupLoop_len (i : Nat) (rows : List (List String)) :
    ∀ seen, (dedupLoop i seen rows).2 = (dedupLoop i seen rows).1.length := by
  induction rows with
  | nil => intro seen; rfl
  | cons r0 rs ih =>
      intro seen
      cases h0 : normKey i r0 with
      | none => rw [dedupLoop_cons_noKey seen rs h0]; simp [ih seen]
      | some k0 =>
          cases hc : seen.contains k0 with
          | true => rw [dedupLoop_cons_dup rs h0 hc]; exact ih seen
          | false => rw [dedupLoop_cons_new rs h0 hc]; simp [ih (k0 :: seen)]

/-- The non-empty normalized keys of the dedup loop's output are pairwise
distinct. -/
lemma dedupLoop_keys_nodup (i : Nat) (rows : List (List String)) :
    ∀ seen, ((dedupLoop i seen rows).1.filterMap (normKey i)).Nodup := by
  induction rows with
  | nil => intro seen; simp [dedupLoop]
  | cons r0 rs ih =>
      intro seen
      cases h0 : normKey i r0 with
      | none =>
          rw [dedupLoop_cons_noKey seen rs h0]
          rw [List.filterMap_cons_none h0]
          exact ih seen
      | some k0 =>
          cases hc : seen.contains k0 with
          | true => rw [dedupLoop_cons_dup rs h0 hc]; exact ih seen
          | false =>
              rw [dedupLoop_cons_new rs h0 hc]
              rw [List.filterMap_cons_some h0]
              refine List.nodup_cons.2 ⟨?_, ih (k0 :: seen)⟩
              intro hk0mem
              rcases List.mem_filterMap.1 hk0mem with ⟨r, hr, hkr⟩
              have h2 := dedupLoop_mem_key_not_seen i rs (k0 :: seen) r k0 hr hkr
              rw [List.contains_cons] at h2
              simp at h2

/-- A record retained by the dedup loop is the first record of the input
whose normalized key equals its own. -/
lemma dedupLoop_firstocc (i : Nat) (rows : List (List String)) :
    ∀ (seen : List String) (r : List String) (k : String),
      r ∈ (dedupLoop i seen rows).1 → normKey i r = some k →
      rows.find? (fun r2 => normKey i r2 == some k) = some r := by
  induction rows with
  | nil => intro seen r k h _; simp [dedupLoop] at h
  | cons r0 rs ih =>
      intro seen r k hmem hk
      cases h0 : normKey i r0 with
      | none =>
          rw [dedupLoop_cons_noKey seen rs h0] at hmem
          rw [List.find?_cons_of_neg _ (by simp [h0])]
          rcases List.mem_cons.1 hmem with rfl | hmem'
          · rw [h0] at hk; cases hk
          · exact ih seen r k hmem' hk
      | some k0 =>
          cases hc : seen.contains k0 with
          | true =>
              rw [dedupLoop_cons_dup rs h0 hc] at hmem
              have hnk : seen.contains k = false :=
                dedupLoop_mem_key_not_seen i rs seen r k hmem hk
              have hne : ¬(k0 = k) := by
                intro he; rw [he] at hc; rw [hc] at hnk; cases hnk
              rw [List.find?_cons_of_neg _ (by simp [h0, hne])]
              exact ih seen r k hmem hk
          | false =>
              rw [dedupLoop_cons_new rs h0 hc] at hmem
              rcases List.mem_cons.1 hmem with rfl | hmem'
              · rw [h0] at hk
                injection hk with hkk
                rw [List.find?_cons_of_pos _ (by simp [h0, hkk])]
              · have h2 := dedupLoop_mem_key_not_seen i rs (k0 :: seen) r k hmem' hk
                rw [List.contains_cons] at h2
                have hne : ¬(k0 = k) := by
                  intro he
                  rw [he] at h2
                  simp at h2
                rw [List.find?_cons_of_neg _ (by simp [h0, hne])]
                exact ih (k0 :: seen) r k hmem' hk

/-- On an input whose non-empty keys are pairwise distinct and disjoint from
the seen set, the dedup loop keeps every record. -/
lemma dedupLoop_id (i : Nat) (l : List (List String)) :
    ∀ seen, (∀ r ∈ l, ∀ k, normKey i r = some k → seen.contains k = false) →
      (l.filterMap (normKey i)).Nodup → dedupLoop i seen l = (l, l.length) := by
  induction l with
  | nil => intro seen _ _; rfl
  | cons r0 rs ih =>
      intro seen hseen hnodup
      cases h0 : normKey i r0 with
      | none =>
          rw [dedupLoop_cons_noKey seen rs h0]
          rw [ih seen (fun r hr k hk => hseen r (List.mem_cons_of_mem r0 hr) k hk)
              (by rwa [List.filterMap_cons_none h0] at hnodup)]
          simp
      | some k0 =>
          have hc : seen.contains k0 = false :=
            hseen r0 (List.mem_cons_self r0 rs) k0 h0
          rw [dedupLoop_cons_new rs h0 hc]
          rw [List.filterMap_cons_some h0] at hnodup
          have hnotin := (List.nodup_cons.1 hnodup).1
          have htl := (List.nodup_cons.1 hnodup).2
          rw [ih (k0 :: seen) ?_ htl]
          · simp
          · intro r hr k hk
            rw [List.contains_cons]
            have h1 : seen.contains k = false :=
              hseen r (List.mem_cons_of_mem r0 hr) k hk
            have h2 : ¬(k == k0) = true := by
              simp only [beq_iff_eq]
              intro he
              exact hnotin (he ▸ List.mem_filterMap.2 ⟨r, hr, hk⟩)
            cases hkb : (k == k0) with
            | true => exact absurd hkb h2
            | false => rw [Bool.false_or]; exact h1

/-- The count returned by the dedup loop: one per new distinct key plus one
per record without a key. -/
lemma dedupLoop_count_formula (i : Nat) (rows : List (List String)) :
    ∀ seen, (dedupLoop i seen rows).2 =
      countDistinct seen (rows.filterMap (normKey i)) +
        rows.countP (fun r => (normKey i r).isNone) := by
  induction rows with
  | nil => intro seen; rfl
  | cons r0 rs ih =>
      intro seen
      cases h0 : normKey i r0 with
      | none =>
          rw [dedupLoop_cons_noKey seen rs h0, List.filterMap_cons_none h0,
              List.countP_cons]
          simp [h0, ih seen]
          omega
      | some k0 =>
          cases hc : seen.contains k0 with
          | true =>
              rw [dedupLoop_cons_dup rs h0 hc, List.filterMap_cons_some h0,
                  List.countP_cons]
              simp only [countDistinct, hc, if_true]
              simp [h0, ih seen]
          | false =>
              rw [dedupLoop_cons_new rs h0 hc, List.filterMap_cons_some h0,
                  List.countP_cons]
              simp only [countDistinct, hc, if_false]
              simp [h0, ih (k0 :: seen)]
              omega

/-- `countDistinct` counts the distinct keys not already in the seen set. -/
lemma countDistinct_card (ks : List String) :
    ∀ seen, countDistinct seen ks = (ks.toFinset \ seen.toFinset).card := by
  induction ks with
  | nil => intro seen; simp [countDistinct]
  | cons k ks ih =>
      intro seen
      rw [List.toFinset_cons]
      cases hc : seen.contains k with
      | true =>
          have hk : k ∈ seen.toFinset := by
            rw [List.mem_toFinset]
            simpa using hc
          simp only [countDistinct, hc, if_true]
          rw [Finset.insert_sdiff_of_mem _ hk]
          exact ih seen
      | false =>
          have hk : k ∉ seen.toFinset := by
            rw [List.mem_toFinset]
            simpa using hc
          simp only [countDistinct, hc]
          rw [if_neg (by simp)]
          rw [ih (k :: seen), List.toFinset_cons, Finset.sdiff_insert,
              Finset.insert_sdiff_of_not_mem _ hk]
          by_cases hkk : k ∈ ks.toFinset \ seen.toFinset
          · rw [Finset.insert_eq_self.2 hkk, Finset.card_erase_add_one hkk]
          · rw [Finset.erase_eq_of_not_mem hkk, Finset.card_insert_of_not_mem hkk]

/-- A record with no key survives the dedup loop every time it occurs. -/
lemma dedupLoop_count_noKey (i : Nat) (r : List String) (h : normKey i r = none)
    (rows : List (List String)) :
    ∀ seen, (dedupLoop i seen rows).1.count r = rows.count r := by
  induction rows with
  | nil => intro seen; rfl
  | cons r0 rs ih =>
      intro seen
      cases h0 : normKey i r0 with
      | none =>
          rw [dedupLoop_cons_noKey seen rs h0]
          rw [List.count_cons, List.count_cons, ih seen]
      | some k0 =>
          cases hc : seen.contains k0 with
          | true =>
              rw [dedupLoop_cons_dup rs h0 hc, List.count_cons]
              have hne : (r0 == r) = false := by
                simp only [beq_eq_false_iff_ne, ne_eq]
                intro he
                rw [he, h] at h0
                cases h0
              rw [hne, ih seen]
              simp
          | false =>
              rw [dedupLoop_cons_new rs h0 hc]
              rw [List.count_cons, List.count_cons, ih (k0 :: seen)]

/-! ### Column resolution (`Iterator::position`) -/

lemma position_eq_none_iff (p : String → Bool) (l : List String) :
    position p l = none ↔ ∀ x ∈ l, p x = false := by
  induction l with
  | nil => simp [position]
  | cons h t ih =>
      simp only [position]
      cases hp : p h with
      | true => simp [hp]
      | false => simp [hp, ih]

lemma position_some_get (p : String → Bool) (l : List String) :
    ∀ i, position p l = some i → ∃ x, l.get? i = some x ∧ p x = true := by
  induction l with
  | nil => intro i h; cases h
  | cons h t ih =>
      intro i hi
      simp only [position] at hi
      cases hp : p h with
      | true =>
          rw [hp] at hi
          simp at hi
          exact ⟨h, by rw [← hi]; rfl, hp⟩
      | false =>
          rw [hp] at hi
          simp at hi
          rcases hi with ⟨j, hj, hji⟩
          rcases ih j hj with ⟨x, hx, hpx⟩
          refine ⟨x, ?_, hpx⟩
          subst hji
          simpa using hx

lemma position_some_min (p : String → Bool) (l : List String) :
    ∀ i, position p l = some i →
      ∀ j, j < i → ∀ y, l.get? j = some y → p y = false := by
  induction l with
  | nil => intro i h; cases h
  | cons h t ih =>
      intro i hi j hj y hy
      simp only [position] at hi
      cases hp : p h with
      | true =>
          rw [hp] at hi
          simp at hi
          omega
      | false =>
          rw [hp] at hi
          simp at hi
          rcases hi with ⟨i', hi', hii⟩
          subst hii
          cases j with
          | zero =>
              cases hy
              exact hp
          | succ j' =>
              exact ih i' hi' j' (by omega) y (by simpa using hy)

/-! ### Unfolding the top-level functions over the column-resolution result -/

lemma cleanLoop_fst (R : List String) (i : Nat) (rows : List (List String)) :
    (cleanLoop R i rows).1 = rows.filter (keepRow R i) := by
  rw [cleanLoop_eq]

lemma cleanLoop_snd (R : List String) (i : Nat) (rows : List (List String)) :
    (cleanLoop R i rows).2 = (rows.filter (keepRow R i)).length := by
  rw [cleanLoop_eq]

lemma clean_eq_of_pos {headers : List String} {i : Nat}
    (hpos : position (fun h => h == "email") headers = some i)
    (R : List String) (rows : List (List String)) :
    clean_file_by_emails R headers rows =
      Except.ok (headers :: (cleanLoop R i rows).1, (cleanLoop R i rows).2) := by
  unfold clean_file_by_emails
  rw [hpos]

lemma clean_eq_of_neg {headers : List String}
    (hpos : position (fun h => h == "email") headers = none)
    (R : List String) (rows : List (List String)) :
    clean_file_by_emails R headers rows =
      Except.error "Coluna email nao encontrada" := by
  unfold clean_file_by_emails
  rw [hpos]

lemma dedup_eq_of_pos {headers : List String} {i : Nat}
    (hpos : position (fun h => h == "email") headers = some i)
    (rows : List (List String)) :
    remove_duplicates_in_file headers rows =
      Except.ok (headers :: (dedupLoop i [] rows).1, (dedupLoop i [] rows).2) := by
  unfold remove_duplicates_in_file
  rw [hpos]

lemma dedup_eq_of_neg {headers : List String}
    (hpos : position (fun h => h == "email") headers = none)
    (rows : List (List String)) :
    remove_duplicates_in_file headers rows =
      Except.error "Coluna email nao encontrada" := by
  unfold remove_duplicates_in_file
  rw [hpos]

lemma read_eq_of_pos {headers : List String} {i : Nat}
    (hpos : position (fun h => h == "email") headers = some i)
    (rows : List (List String)) :
    read_emails_to_set headers rows = Except.ok (buildSet i [] rows) := by
  unfold read_emails_to_set
  rw [hpos]

lemma read_eq_of_neg {headers : List String}
    (hpos : position (fun h => h == "email") headers = none)
    (rows : List (List String)) :
    read_emails_to_set headers rows =
      Except.error "Coluna email nao encontrada" := by
  unfold read_emails_to_set
  rw [hpos]

lemma position_email_none_iff (headers : List String) :
    position (fun h => h == "email") headers = none ↔ "email" ∉ headers := by
  rw [position_eq_none_iff]
  constructor
  · intro hall hmem
    have := hall "email" hmem
    simp at this
  · intro hmem x hx
    simp only [beq_eq_false_iff_ne, ne_eq]
    intro he
    exact hmem (he ▸ hx)

lemma position_email_isSome (headers : List String) :
    (position (fun h => h == "email") headers).isSome = headers.contains "email" := by
  cases hpos : position (fun h => h == "email") headers with
  | none =>
      have hmem := (position_email_none_iff headers).1 hpos
      have : headers.contains "email" = false := by simpa using hmem
      rw [this]
      rfl
  | some i =>
      rcases position_some_get _ _ i hpos with ⟨x, hx, hpx⟩
      have hxe : x = "email" := by simpa using hpx
      have hmem : "email" ∈ headers := hxe ▸ List.get?_mem hx
      have : headers.contains "email" = true := by simpa using hmem
      rw [this]
      rfl

/-! ### Claim theorems -/

/-- C1: Exclusion keep/drop law.  When the `email` column resolves to `i`,
exclusion filtering writes the header followed by exactly the records passing
`keepRow`, and a record fails `keepRow` (is dropped) iff its normalized key is
non-empty (`some k`) and `k` is a member of the reference set `R`; records
with an absent, empty, or non-member key are kept. -/
theorem C1_exclusion_keep_drop_law (R headers : List String)
    (rows : List (List String)) (i : Nat) (r : List String)
    (hpos : position (fun h => h == "email") headers = some i) :
    clean_file_by_emails R headers rows =
      Except.ok (headers :: rows.filter (keepRow R i),
        (rows.filter (keepRow R i)).length)
    ∧ (keepRow R i r = false ↔ ∃ k, normKey i r = some k ∧ k ∈ R) := by
  refine ⟨?_, keepRow_eq_false_iff R i r⟩
  rw [clean_eq_of_pos hpos, cleanLoop_fst, cleanLoop_snd]

/-- C1 witness: concrete reference set, header, stream, and record. -/
theorem C1_exclusion_keep_drop_law_witness :
    position (fun h => h == "email") ["email", "name"] = some 0
    ∧ (clean_file_by_emails ["x@y.com"] ["email", "name"]
          [["x@y.com", "Al"], ["z@w.com", "Bo"]] =
        Except.ok (["email", "name"] ::
          [["x@y.com", "Al"], ["z@w.com", "Bo"]].filter (keepRow ["x@y.com"] 0),
          ([["x@y.com", "Al"], ["z@w.com", "Bo"]].filter (keepRow ["x@y.com"] 0)).length)
      ∧ (keepRow ["x@y.com"] 0 [" X@Y.com ", "Cy"] = false ↔
          ∃ k, normKey 0 [" X@Y.com ", "Cy"] = some k ∧ k ∈ ["x@y.com"])) :=
  ⟨by decide,
   C1_exclusion_keep_drop_law ["x@y.com"] ["email", "name"]
     [["x@y.com", "Al"], ["z@w.com", "Bo"]] 0 [" X@Y.com ", "Cy"] (by decide)⟩

/-- C2: Dedup first-occurrence law.  When the `email` column resolves to `i`,
dedup filtering writes the header followed by the dedup loop's output; the
retained non-empty normalized keys are pairwise distinct, and any retained
record `r` with key `k` is the earliest record of the input whose normalized
key is `k`. -/
theorem C2_dedup_first_occurrence_law (headers : List String)
    (rows : List (List String)) (i : Nat) (r : List String) (k : String)
    (hpos : position (fun h => h == "email") headers = some i)
    (hr : r ∈ (dedupLoop i [] rows).1)
    (hk : normKey i r = some k) :
    remove_duplicates_in_file headers rows =
      Except.ok (headers :: (dedupLoop i [] rows).1,
        ((dedupLoop i [] rows).1).length)
    ∧ ((dedupLoop i [] rows).1.filterMap (normKey i)).Nodup
    ∧ rows.find? (fun r2 => normKey i r2 == some k) = some r := by
  refine ⟨?_, dedupLoop_keys_nodup i rows [], dedupLoop_firstocc i rows [] r k hr hk⟩
  rw [dedup_eq_of_pos hpos, dedupLoop_len]

/-- C2 witness: the spec's dedup scenario (row 2 is a case-insensitive
duplicate of row 1). -/
theorem C2_dedup_first_occurrence_law_witness :
    (position (fun h => h == "email") ["email", "name"] = some 0
      ∧ ["a@b.com", "Al"] ∈
          (dedupLoop 0 [] [["a@b.com", "Al"], ["A@B.COM", "Ann"], ["c@d.com", "Cy"]]).1
      ∧ normKey 0 ["a@b.com", "Al"] = some "a@b.com")
    ∧ (remove_duplicates_in_file ["email", "name"]
          [["a@b.com", "Al"], ["A@B.COM", "Ann"], ["c@d.com", "Cy"]] =
        Except.ok (["email", "name"] ::
          (dedupLoop 0 [] [["a@b.com", "Al"], ["A@B.COM", "Ann"], ["c@d.com", "Cy"]]).1,
          ((dedupLoop 0 [] [["a@b.com", "Al"], ["A@B.COM", "Ann"], ["c@d.com", "Cy"]]).1).length)
      ∧ ((dedupLoop 0 [] [["a@b.com", "Al"], ["A@B.COM", "Ann"], ["c@d.com", "Cy"]]).1.filterMap
          (normKey 0)).Nodup
      ∧ [["a@b.com", "Al"], ["A@B.COM", "Ann"], ["c@d.com", "Cy"]].find?
          (fun r2 => normKey 0 r2 == some "a@b.com") = some ["a@b.com", "Al"]) :=
  ⟨⟨by decide, by decide, by decide⟩,
   C2_dedup_first_occurrence_law ["email", "name"]
     [["a@b.com", "Al"], ["A@B.COM", "Ann"], ["c@d.com", "Cy"]] 0
     ["a@b.com", "Al"] "a@b.com" (by decide) (by decide) (by decide)⟩

/-- C3: Empty-key invariant.  A record whose email cell is absent or
whitespace-only (normalized key `none`) passes `keepRow` for every reference
set, is never flagged as a duplicate and never changes the seen set, and
every one of its occurrences survives both filtering loops. -/
theorem C3_empty_key_invariant (R seen : List String) (i : Nat)
    (r : List String) (rows : List (List String))
    (h : normKey i r = none) :
    keepRow R i r = true
    ∧ dedupStep seen i r = (false, seen)
    ∧ (cleanLoop R i rows).1.count r = rows.count r
    ∧ (dedupLoop i seen rows).1.count r = rows.count r := by
  refine ⟨keepRow_of_noKey R i r h, dedupStep_noKey seen h, ?_,
    dedupLoop_count_noKey i r h rows seen⟩
  rw [cleanLoop_fst]
  exact List.count_filter (keepRow_of_noKey R i r h)

/-- C3 witness: a whitespace-only email cell occurring twice in the stream. -/
theorem C3_empty_key_invariant_witness :
    normKey 0 [" ", "Al"] = none
    ∧ (keepRow [" "] 0 [" ", "Al"] = true
      ∧ dedupStep ["x@y.com"] 0 [" ", "Al"] = (false, ["x@y.com"])
      ∧ (cleanLoop [" "] 0 [[" ", "Al"], ["x@y.com", "Bo"], [" ", "Al"]]).1.count [" ", "Al"] =
          [[" ", "Al"], ["x@y.com", "Bo"], [" ", "Al"]].count [" ", "Al"]
      ∧ (dedupLoop 0 ["x@y.com"] [[" ", "Al"], ["x@y.com", "Bo"], [" ", "Al"]]).1.count [" ", "Al"] =
          [[" ", "Al"], ["x@y.com", "Bo"], [" ", "Al"]].count [" ", "Al"]) :=
  ⟨by decide,
   C3_empty_key_invariant [" "] ["x@y.com"] 0 [" ", "Al"]
     [[" ", "Al"], ["x@y.com", "Bo"], [" ", "Al"]] (by decide)⟩

/-- C4: Key normalization.  A raw cell yields "no key" exactly when its
trimmed form is empty; otherwise the key is the trimmed, lowercased value.
Consequently `"A@B.com"`, `"a@b.com"` and `" a@b.com "` all normalize to the
same key, while internal whitespace is preserved. -/
theorem C4_key_normalization (raw : String) :
    ((normalize raw).isNone = (trim raw == ""))
    ∧ (normalize raw = none ∨ normalize raw = some (to_lowercase (trim raw)))
    ∧ normalize "A@B.com" = some "a@b.com"
    ∧ normalize "a@b.com" = some "a@b.com"
    ∧ normalize " a@b.com " = some "a@b.com"
    ∧ normalize "a b@c.com" = some "a b@c.com" := by
  refine ⟨?_, ?_, by decide, by decide, by decide, by decide⟩
  · unfold normalize
    by_cases he : trim raw = "" <;> simp [he]
  · unfold normalize
    by_cases he : trim raw = ""
    · left; simp [he]
    · right; simp [he]

/-- C5: Output structure and content preservation.  Both modes write the
header first, and the remaining output records form a sublist of the input
records: kept records appear in input order with field values, column order,
and arity verbatim. -/
theorem C5_output_content_preservation (R headers : List String)
    (rows out1 out2 : List (List String)) (n1 n2 : Nat)
    (h1 : clean_file_by_emails R headers rows = Except.ok (out1, n1))
    (h2 : remove_duplicates_in_file headers rows = Except.ok (out2, n2)) :
    out1.head? = some headers ∧ out1.tail.Sublist rows
    ∧ out2.head? = some headers ∧ out2.tail.Sublist rows := by
  cases hpos : position (fun h => h == "email") headers with
  | none =>
      rw [clean_eq_of_neg hpos] at h1
      cases h1
  | some i =>
      rw [clean_eq_of_pos hpos] at h1
      rw [dedup_eq_of_pos hpos] at h2
      injection h1 with h1'
      injection h2 with h2'
      injection h1' with h1a h1b
      injection h2' with h2a h2b
      rw [← h1a, ← h2a]
      refine ⟨rfl, ?_, rfl, ?_⟩
      · rw [List.tail_cons, cleanLoop_fst]
        exact List.filter_sublist rows
      · rw [List.tail_cons]
        exact dedupLoop_sublist i rows []

/-- C5 witness: both runs on a concrete two-record stream. -/
theorem C5_output_content_preservation_witness :
    (clean_file_by_emails ["a@b.com"] ["email"] [["a@b.com"], ["a@b.com"]] =
        Except.ok ([["email"]], 0)
      ∧ remove_duplicates_in_file ["email"] [["a@b.com"], ["a@b.com"]] =
        Except.ok ([["email"], ["a@b.com"]], 1))
    ∧ ([["email"]].head? = some ["email"]
      ∧ ([["email"]] : List (List String)).tail.Sublist [["a@b.com"], ["a@b.com"]]
      ∧ [["email"], ["a@b.com"]].head? = some ["email"]
      ∧ [["email"], ["a@b.com"]].tail.Sublist [["a@b.com"], ["a@b.com"]]) :=
  ⟨⟨by rfl, by rfl⟩,
   C5_output_content_preservation ["a@b.com"] ["email"] [["a@b.com"], ["a@b.com"]]
     [["email"]] [["email"], ["a@b.com"]] 0 1 (by rfl) (by rfl)⟩

/-- C6: Exclusion idempotence.  Re-running exclusion with the same reference
set on the records it kept drops nothing: every record is written again and
the count equals the full record count. -/
theorem C6_exclusion_idempotent (R headers : List String)
    (rows out : List (List String)) (i : Nat) (n : Nat)
    (hpos : position (fun h => h == "email") headers = some i)
    (hrun : clean_file_by_emails R headers rows = Except.ok (headers :: out, n)) :
    clean_file_by_emails R headers out = Except.ok (headers :: out, out.length) := by
  rw [clean_eq_of_pos hpos] at hrun
  injection hrun with h'
  injection h' with ha hb
  injection ha with hah hout
  rw [cleanLoop_fst] at hout
  have hall : ∀ a ∈ out, keepRow R i a = true := by
    intro a hamem
    rw [← hout] at hamem
    exact (List.mem_filter.1 hamem).2
  have hfilter : out.filter (keepRow R i) = out := List.filter_eq_self.2 hall
  rw [clean_eq_of_pos hpos, cleanLoop_fst, cleanLoop_snd, hfilter]

/-- C6 witness: re-running exclusion on an already-cleaned stream. -/
theorem C6_exclusion_idempotent_witness :
    (position (fun h => h == "email") ["email"] = some 0
      ∧ clean_file_by_emails ["a@b.com"] ["email"] [["a@b.com"], ["b@c.com"]] =
        Except.ok (["email"] :: [["b@c.com"]], 1))
    ∧ clean_file_by_emails ["a@b.com"] ["email"] [["b@c.com"]] =
        Except.ok (["email"] :: [["b@c.com"]], 1) :=
  ⟨⟨by decide, by rfl⟩,
   C6_exclusion_idempotent ["a@b.com"] ["email"] [["a@b.com"], ["b@c.com"]]
     [["b@c.com"]] 0 1 (by decide) (by rfl)⟩

/-- C7: Dedup idempotence.  Re-running dedup on the records it kept drops
nothing: every record is written again and the count equals the full record
count. -/
theorem C7_dedup_idempotent (headers : List String)
    (rows out : List (List String)) (i : Nat) (n : Nat)
    (hpos : position (fun h => h == "email") headers = some i)
    (hrun : remove_duplicates_in_file headers rows = Except.ok (headers :: out, n)) :
    remove_duplicates_in_file headers out = Except.ok (headers :: out, out.length) := by
  rw [dedup_eq_of_pos hpos] at hrun
  injection hrun with h'
  injection h' with ha hb
  injection ha with hah hout
  have hid : dedupLoop i [] out = (out, out.length) := by
    refine dedupLoop_id i out [] (fun r _ k _ => rfl) ?_
    rw [← hout]
    exact dedupLoop_keys_nodup i rows []
  rw [dedup_eq_of_pos hpos, hid]

/-- C7 witness: re-running dedup on an already-deduped stream. -/
theorem C7_dedup_idempotent_witness :
    (position (fun h => h == "email") ["email"] = some 0
      ∧ remove_duplicates_in_file ["email"] [["a@b.com"], ["A@B.COM"]] =
        Except.ok (["email"] :: [["a@b.com"]], 1))
    ∧ remove_duplicates_in_file ["email"] [["a@b.com"]] =
        Except.ok (["email"] :: [["a@b.com"]], 1) :=
  ⟨⟨by decide, by rfl⟩,
   C7_dedup_idempotent ["email"] [["a@b.com"], ["A@B.COM"]] [["a@b.com"]] 0 1
     (by decide) (by rfl)⟩

/-- C8: Column resolution raises iff no header entry equals `email`.  Each of
the three processing functions succeeds exactly when the header contains an
entry exactly equal to `"email"`; resolution yields `none` iff no entry
matches, and when it yields `some i`, entry `i` is the first `"email"` entry. -/
theorem C8_column_resolution_raises_iff (headers R : List String)
    (rows : List (List String)) :
    isOk (clean_file_by_emails R headers rows) = headers.contains "email"
    ∧ isOk (remove_duplicates_in_file headers rows) = headers.contains "email"
    ∧ isOk (read_emails_to_set headers rows) = headers.contains "email"
    ∧ (position (fun h => h == "email") headers = none ↔ "email" ∉ headers)
    ∧ ∀ i, position (fun h => h == "email") headers = some i →
        headers.get? i = some "email"
        ∧ ∀ j, j < i → headers.get? j ≠ some "email" := by
  refine ⟨?_, ?_, ?_, position_email_none_iff headers, ?_⟩
  · cases hpos : position (fun h => h == "email") headers with
    | none =>
        rw [clean_eq_of_neg hpos, ← position_email_isSome, hpos]
        rfl
    | some i =>
        rw [clean_eq_of_pos hpos, ← position_email_isSome, hpos]
        rfl
  · cases hpos : position (fun h => h == "email") headers with
    | none =>
        rw [dedup_eq_of_neg hpos, ← position_email_isSome, hpos]
        rfl
    | some i =>
        rw [dedup_eq_of_pos hpos, ← position_email_isSome, hpos]
        rfl
  · cases hpos : position (fun h => h == "email") headers with
    | none =>
        rw [read_eq_of_neg hpos, ← position_email_isSome, hpos]
        rfl
    | some i =>
        rw [read_eq_of_pos hpos, ← position_email_isSome, hpos]
        rfl
  · intro i hpos
    constructor
    · rcases position_some_get _ _ i hpos with ⟨x, hx, hpx⟩
      have hxe : x = "email" := by simpa using hpx
      rw [← hxe]
      exact hx
    · intro j hj hy
      cases hget : headers.get? j with
      | none => rw [hget] at hy; cases hy
      | some y =>
          rw [hget] at hy
          have hye : y = "email" := by injection hy
          have := position_some_min _ _ i hpos j hj y hget
          rw [hye] at this
          simp at this

/-- C9: Returned count.  Both modes return exactly the number of non-header
records they wrote: the count is the length of the output minus the header. -/
theorem C9_returned_count (R headers : List String)
    (rows out1 out2 : List (List String)) (n1 n2 : Nat)
    (h1 : clean_file_by_emails R headers rows = Except.ok (out1, n1))
    (h2 : remove_duplicates_in_file headers rows = Except.ok (out2, n2)) :
    n1 = out1.tail.length ∧ n2 = out2.tail.length := by
  cases hpos : position (fun h => h == "email") headers with
  | none =>
      rw [clean_eq_of_neg hpos] at h1
      cases h1
  | some i =>
      rw [clean_eq_of_pos hpos] at h1
      rw [dedup_eq_of_pos hpos] at h2
      injection h1 with h1'
      injection h2 with h2'
      injection h1' with h1a h1b
      injection h2' with h2a h2b
      rw [← h1a, ← h1b, ← h2a, ← h2b]
      rw [List.tail_cons, List.tail_cons, cleanLoop_fst, cleanLoop_snd,
          dedupLoop_len]
      exact ⟨rfl, rfl⟩

/-- C9 witness: counts of both concrete runs match the written records. -/
theorem C9_returned_count_witness :
    (clean_file_by_emails ["a@b.com"] ["email"] [["a@b.com"], ["B@C.com"]] =
        Except.ok ([["email"], ["B@C.com"]], 1)
      ∧ remove_duplicates_in_file ["email"] [["a@b.com"], ["B@C.com"]] =
        Except.ok ([["email"], ["a@b.com"], ["B@C.com"]], 2))
    ∧ ((1 : Nat) = ([["email"], ["B@C.com"]] : List (List String)).tail.length
      ∧ (2 : Nat) = ([["email"], ["a@b.com"], ["B@C.com"]] : List (List String)).tail.length) :=
  ⟨⟨by rfl, by rfl⟩,
   C9_returned_count ["a@b.com"] ["email"] [["a@b.com"], ["B@C.com"]]
     [["email"], ["B@C.com"]] [["email"], ["a@b.com"], ["B@C.com"]] 1 2 (by rfl) (by rfl)⟩

/-- C10: Implicit dedup count formula.  The count returned by dedup filtering
equals the number of distinct non-empty normalized keys in the stream plus
the number of records whose key is absent, empty, or whitespace-only. -/
theorem C10_dedup_count_formula (headers : List String)
    (rows : List (List String)) (i : Nat)
    (hpos : position (fun h => h == "email") headers = some i) :
    remove_duplicates_in_file headers rows =
      Except.ok (headers :: (dedupLoop i [] rows).1,
        (rows.filterMap (normKey i)).toFinset.card +
          rows.countP (fun r => (normKey i r).isNone)) := by
  rw [dedup_eq_of_pos hpos, dedupLoop_count_formula i rows [],
      countDistinct_card]
  simp

/-- C10 witness: stream with one repeated key, one fresh key, and one blank
key: count is 2 + 1. -/
theorem C10_dedup_count_formula_witness :
    position (fun h => h == "email") ["email"] = some 0
    ∧ remove_duplicates_in_file ["email"]
        [["a@b.com"], ["A@B.COM"], ["c@d.com"], [" "]] =
      Except.ok (["email"] ::
        (dedupLoop 0 [] [["a@b.com"], ["A@B.COM"], ["c@d.com"], [" "]]).1,
        ([["a@b.com"], ["A@B.COM"], ["c@d.com"], [" "]].filterMap
          (normKey 0)).toFinset.card +
          [["a@b.com"], ["A@B.COM"], ["c@d.com"], [" "]].countP
            (fun r => (normKey 0 r).isNone)) :=
  ⟨by decide,
   C10_dedup_count_formula ["email"]
     [["a@b.com"], ["A@B.COM"], ["c@d.com"], [" "]] 0 (by decide)⟩

end CleanCsv
